import Mathlib

/-!
Verification model of the pygn-mode helper server (`src/pygn_server.py`).

The server reads one request line at a time from standard input, parses it
with the regular expression `(:\S+)(.*?)\s+--\s+(:\S+)\s+(\S.*)\n`, parses
the option group with `shlex.split` plus an `argparse` parser, rebuilds a
game/board from the PGN payload via the external python-chess library, and
dispatches to one of four callbacks.  The external collaborators
(python-chess and the UCI engine subprocess) are modelled as parameters:
a `Chess` structure of pure functions and an `Oracle` describing engine
subprocess behaviour (ping outcomes, analysis results, quit outcomes).
Engine handles are modelled as natural-number identifiers allocated by a
spawn counter, mirroring "spawn a fresh subprocess".
-/

namespace PygnServer

/-- Python regex class `\s` on the Latin-1 range (space, tab, newline,
carriage return, vertical tab, form feed, the four information separators,
next line, no-break space).  Python's `\s` additionally matches a handful of
code points above U+00FF; the server protocol and all inputs considered here
are confined to this range. -/
def isPySpace (c : Char) : Bool :=
  c = ' ' || c = '\t' || c = '\n' || c = '\r' || c = '\x0b' || c = '\x0c' ||
  c = '\x1c' || c = '\x1d' || c = '\x1e' || c = '\x1f' || c = '\x85' || c = '\xa0'

/-- Python regex class `\S` (complement of `\s`). -/
def notSpace (c : Char) : Bool := !isPySpace c

/-- Python regex class `.` without DOTALL: any character except newline. -/
def notNL (c : Char) : Bool := c != '\n'

/-- Length of the longest prefix whose characters all satisfy `p`. -/
def runLen (p : Char → Bool) : List Char → Nat
  | [] => 0
  | c :: cs => if p c then runLen p cs + 1 else 0

/-- Matcher for a literal character, continuation-passing style.  The
continuation receives the rest of the input. -/
def pLit (c : Char) (k : List Char → Option α) : List Char → Option α
  | [] => none
  | a :: rest => if a = c then k rest else none

/-- Matcher for a single character of a class; the continuation receives the
matched character and the rest of the input. -/
def pCls (p : Char → Bool) (k : Char → List Char → Option α) : List Char → Option α
  | [] => none
  | a :: rest => if p a then k a rest else none

/-- Matcher for a greedy one-or-more repetition of a character class
(regex `p+`): longer matches are tried first, exactly as the backtracking
engine does.  The continuation receives the consumed run and the rest. -/
def pPlus (p : Char → Bool) (k : List Char → List Char → Option α) (s : List Char) : Option α :=
  let n := runLen p s
  (List.range n).findSome? fun i => k (s.take (n - i)) (s.drop (n - i))

/-- Matcher for a lazy zero-or-more repetition of a character class
(regex `p*?`): shorter matches are tried first. -/
def pStarLazy (p : Char → Bool) (k : List Char → List Char → Option α) (s : List Char) : Option α :=
  (List.range (runLen p s + 1)).findSome? fun i => k (s.take i) (s.drop i)

/-- Matcher for a greedy zero-or-more repetition of a character class
(regex `p*`): longer matches are tried first. -/
def pStarGreedy (p : Char → Bool) (k : List Char → List Char → Option α) (s : List Char) : Option α :=
  let n := runLen p s
  (List.range (n + 1)).findSome? fun i => k (s.take (n - i)) (s.drop (n - i))

/-- The four capture groups of the request pattern: command token, raw
option text, payload-type token, payload text. -/
structure Req where
  command : String
  opts : String
  ptype : String
  payload : String
  deriving DecidableEq

/-- Match of the request pattern `(:\S+)(.*?)\s+--\s+(:\S+)\s+(\S.*)\n`
anchored at the start of `s` (the anchoring over all start positions is done
by `pySearch`).  Combinators are nested in pattern order; backtracking
priority (greedy long-first, lazy short-first, rightmost-first retry) mirrors
the Python engine. -/
def matchRequestAt (s : List Char) : Option Req :=
  pLit ':' (fun s1 =>
    pPlus notSpace (fun w1 s2 =>
      pStarLazy notNL (fun g2 s3 =>
        pPlus isPySpace (fun _ s4 =>
          pLit '-' (fun s5 =>
            pLit '-' (fun s6 =>
              pPlus isPySpace (fun _ s7 =>
                pLit ':' (fun s8 =>
                  pPlus notSpace (fun w3 s9 =>
                    pPlus isPySpace (fun _ s10 =>
                      pCls notSpace (fun c4 s11 =>
                        pStarGreedy notNL (fun g4r s12 =>
                          pLit '\n' (fun _ =>
                            some { command := ⟨':' :: w1⟩, opts := ⟨g2⟩,
                                   ptype := ⟨':' :: w3⟩, payload := ⟨c4 :: g4r⟩ })
                            s12)
                          s11)
                        s10)
                      s9)
                    s8)
                  s7)
                s6)
              s5)
            s4)
          s3)
        s2)
      s1)
    s

/-- Python `re.search` semantics: try each start position from the left and
return the first successful match. -/
def pySearch : List Char → Option Req
  | [] => matchRequestAt []
  | c :: rest =>
    match matchRequestAt (c :: rest) with
    | some r => some r
    | none => pySearch rest

/-- The server's request parse:
`re.compile("(:\\S+)(.*?)\\s+--\\s+(:\\S+)\\s+(\\S.*)\\n").search(input_str)`. -/
def searchRequest (line : String) : Option Req :=
  pySearch line.data

/-- Lexer modes of the `shlex` word splitter. -/
inductive ShMode
  | norm | inSingle | inDouble
  deriving DecidableEq

/-- Whitespace that separates shell words in `shlex`. -/
def shWhite (c : Char) : Bool := c = ' ' || c = '\t' || c = '\r' || c = '\n'

/-- Close the word accumulator, emitting a word when one is open. -/
def flushWord : Option (List Char) → List String → List String
  | none, acc => acc
  | some w, acc => (⟨w.reverse⟩ : String) :: acc

/-- State machine of `shlex.split` in POSIX mode: whitespace separates
words, single quotes are literal, double quotes honour backslash before a
double quote or a backslash, and a bare backslash escapes the next
character.  An unterminated quote or a trailing escape raises ValueError,
modelled `none`.  (The `whitespace_split`, comment and punctuation
refinements of `shlex` do not arise for the option strings considered
here.) -/
def shlexRun : List Char → ShMode → Option (List Char) → List String → Option (List String)
  | [], .norm, cur, acc => some (flushWord cur acc).reverse
  | [], .inSingle, _, _ => none
  | [], .inDouble, _, _ => none
  | c :: rest, .norm, cur, acc =>
    if shWhite c then shlexRun rest .norm none (flushWord cur acc)
    else if c = '\'' then shlexRun rest .inSingle (some (cur.getD [])) acc
    else if c = '"' then shlexRun rest .inDouble (some (cur.getD [])) acc
    else if c = '\\' then
      match rest with
      | [] => none
      | d :: rest2 => shlexRun rest2 .norm (some (d :: cur.getD [])) acc
    else shlexRun rest .norm (some (c :: cur.getD [])) acc
  | c :: rest, .inSingle, cur, acc =>
    if c = '\'' then shlexRun rest .norm cur acc
    else shlexRun rest .inSingle (some (c :: cur.getD [])) acc
  | c :: rest, .inDouble, cur, acc =>
    if c = '"' then shlexRun rest .norm cur acc
    else if c = '\\' then
      match rest with
      | [] => none
      | d :: rest2 =>
        if d = '"' || d = '\\' then shlexRun rest2 .inDouble (some (d :: cur.getD [])) acc
        else shlexRun rest2 .inDouble (some (d :: '\\' :: cur.getD [])) acc
    else shlexRun rest .inDouble (some (c :: cur.getD [])) acc

/-- `shlex.split(optstr)`, `none` on a raised ValueError. -/
def shlexSplit (s : String) : Option (List String) :=
  shlexRun s.data .norm none []

/-- Decimal digits to a natural number; `none` when empty or non-numeric. -/
def digitsToNat : List Char → Option Nat
  | [] => none
  | ds =>
    if ds.all (·.isDigit) then
      some (ds.foldl (fun n c => n * 10 + (c.toNat - '0'.toNat)) 0)
    else none

/-- Python `int(str)` on an optionally signed decimal literal (surrounding
whitespace and underscore separators are not modelled; the protocol's
option values are plain decimals). -/
def parsePyInt (s : String) : Option Int :=
  match s.data with
  | '-' :: ds => (digitsToNat ds).map (fun n => -(n : Int))
  | '+' :: ds => (digitsToNat ds).map (fun n => (n : Int))
  | ds => (digitsToNat ds).map (fun n => (n : Int))

/-- The argparse namespace built by `generate_argparser`
(src/pygn_server.py lines 166-189): each recognized option is declared with
`nargs=1`, so values are stored as singleton lists, with the listed
defaults. -/
structure Args where
  pixels : List Int := [400]
  board_format : List String := ["svg"]
  engine : List String := ["stockfish"]
  depth : List Int := [20]
  deriving DecidableEq

/-- Model of `argparser.parse_args` over the four declared options, exact
flag spellings only (argparse's prefix abbreviation and `=`-joined values
are not modelled; the protocol uses the plain spellings).  A lone `--`
separator token is consumed; any other unknown or incomplete token is an
argparse error — argparse exits, which the caller's bare except catches —
modelled `none`. -/
def parse_args : List String → Args → Option Args
  | [], a => some a
  | ["--"], a => some a
  | [_], _ => none
  | t :: v :: rest, a =>
    if t = "-pixels" || t = "--pixels" then
      match parsePyInt v with
      | some n => parse_args rest { a with pixels := [n] }
      | none => none
    else if t = "-board_format" || t = "--board_format" then
      parse_args rest { a with board_format := [v] }
    else if t = "-engine" || t = "--engine" then
      parse_args rest { a with engine := [v] }
    else if t = "-depth" || t = "--depth" then
      match parsePyInt v with
      | some n => parse_args rest { a with depth := [n] }
      | none => none
    else none

/-- `argparser.parse_args(shlex.split(optstr))`; `none` models any raised
exception (shlex ValueError or argparse SystemExit), caught at the call
site by the bare except. -/
def parseOptions (optstr : String) : Option Args :=
  match shlexSplit optstr with
  | none => none
  | some toks => parse_args toks {}

/-- Model of `re.sub(r'\\n', '\n', pgn)`: replace every literal
backslash-n two-character sequence with a real newline (leftmost,
non-overlapping). -/
def unescNL : List Char → List Char
  | '\\' :: 'n' :: rest => '\n' :: unescNL rest
  | c :: rest => c :: unescNL rest
  | [] => []

/-- Model of `re.sub(r'\s+\S+\Z', '', mainline)`: remove the trailing
maximal non-whitespace token together with the maximal whitespace run
immediately before it, provided both are nonempty; otherwise (input ending
in whitespace, or a bare token with no whitespace before it) the pattern
has no match and the input is returned unchanged. -/
def stripResult (s : String) : String :=
  let r := s.data.reverse
  let t := r.takeWhile notSpace
  let w := (r.drop t.length).takeWhile isPySpace
  if t.length = 0 || w.length = 0 then s
  else ⟨(r.drop (t.length + w.length)).reverse⟩

/-- Model of `re.sub(r'\n', '\\\\n', text)`: every newline becomes the
two-character sequence backslash-n. -/
def escNL : List Char → List Char
  | [] => []
  | c :: rest => if c = '\n' then '\\' :: 'n' :: escNL rest else c :: escNL rest

/-- Piece-glyph translation from
`str.maketrans('♜♞♝♛♚♟♖♘♗♕♔♙','RNBQKPrnbqkp')`. -/
def pieceTrans (c : Char) : Char :=
  if c = '♜' then 'R' else if c = '♞' then 'N' else if c = '♝' then 'B'
  else if c = '♛' then 'Q' else if c = '♚' then 'K' else if c = '♟' then 'P'
  else if c = '♖' then 'r' else if c = '♘' then 'n' else if c = '♗' then 'b'
  else if c = '♕' then 'q' else if c = '♔' then 'k' else if c = '♙' then 'p'
  else c

/-- Model of `re.sub(r'^(\d) ', '\\1', text, flags=re.MULTILINE)` on one
line: a digit at the line start followed by a space loses the space. -/
def dropDigitSpace (line : String) : String :=
  match line.data with
  | d :: ' ' :: rest => if d.isDigit then ⟨d :: rest⟩ else line
  | _ => line

/-- Model of an `\A`-anchored substitution: replace `pat` once when it is a
prefix of `text`. -/
def subPrefixOnce (pat repl text : String) : String :=
  if pat.isPrefixOf text then repl ++ text.drop pat.length else text

/-- The text-diagram post-processing chain of `pgn_to_board_callback`
(src/pygn_server.py lines 73-82) applied to the output of
`board.unicode(borders=True)`: middle dots to spaces, border redrawing,
rank-label respacing, glyph translation, and a final escaping of every
newline so the whole diagram fits on one reply line. -/
def boardTextTransform (s : String) : String :=
  let t := s.replace "·" " "
  let t := t.replace "-----------------" "├───┼───┼───┼───┼───┼───┼───┼───┤"
  let t := subPrefixOnce "  ├───┼───┼───┼───┼───┼───┼───┼───┤"
    "  ┌───┬───┬───┬───┬───┬───┬───┬───┐" t
  let t := t.replace "├───┼───┼───┼───┼───┼───┼───┼───┤\n   a"
    "└───┴───┴───┴───┴───┴───┴───┴───┘\n   a"
  let t := t.replace "a b c d e f g h" " a   b   c   d   e   f   g   h"
  let t := t.replace "|" " │ "
  let t := String.intercalate "\n" ((t.splitOn "\n").map dropDigitSpace)
  let t : String := ⟨t.data.map pieceTrans⟩
  (⟨escNL t.data⟩ : String)

/-- The python-chess operations the server consumes, as pure functions.
`read_game` returns `none` when the library finds no game in the text
(python-chess returns `None` at end of input); `svg` takes the last move as
an `Option` because the server passes the Python `False` sentinel, treated
as "no last move", when the game has no moves. -/
structure Chess (G B M : Type) where
  read_game : String → Option G
  board0 : G → B
  mainline_moves : G → List M
  push : B → M → B
  fen : B → String
  svg : B → Option M → Int → String
  unicode_b : B → String
  accept_clean : G → String

/-- Behaviour of engine subprocesses, indexed by spawn identifier: whether
a `ping` round-trip succeeds, what `engine.analyse` followed by
`str(uci_info["score"])` yields (`none` models a raised exception), and
whether a `quit` request succeeds. -/
structure Oracle (B : Type) where
  pingOk : Nat → Bool
  analyse : Nat → B → Int → Option String
  quitOk : Nat → Bool

/-- The process-wide mutable state: the `ENGINES` dict (an
insertion-ordered association list from engine path to handle identifier),
the spawn counter producing fresh handle identifiers, the handles that have
passed a ping, and the handles that have been successfully quit. -/
structure ServerState where
  engines : List (String × Nat)
  nextId : Nat
  probed : List Nat
  terminated : List Nat
  deriving DecidableEq

/-- Python dict lookup on the engines table. -/
def lookupEng : List (String × Nat) → String → Option Nat
  | [], _ => none
  | (k, v) :: t, key => if key = k then some v else lookupEng t key

/-- Python dict assignment: replace the value in place when the key is
present, append otherwise. -/
def setEng : List (String × Nat) → String → Nat → List (String × Nat)
  | [], key, v => [(key, v)]
  | (k, w) :: t, key, v => if key = k then (k, v) :: t else (k, w) :: setEng t key v

/-- First half of `instantiate_engine` (src/pygn_server.py lines 51-52):
when no handle exists for the path, spawn one — allocate the next fresh
identifier — and store it. -/
def ensureEngine (st : ServerState) (engine_path : String) : ServerState :=
  if (lookupEng st.engines engine_path).isSome then st
  else { st with engines := setEng st.engines engine_path st.nextId,
                 nextId := st.nextId + 1 }

/-- Second half of `instantiate_engine` (src/pygn_server.py lines 53-57):
ping the stored handle — recording the passed probe — and on a ping
failure spawn a replacement, without pinging it, and overwrite the entry;
return the stored handle. -/
def pingStep (o : Oracle B) (st1 : ServerState) (engine_path : String) :
    Nat × ServerState :=
  match lookupEng st1.engines engine_path with
  | some h =>
    if o.pingOk h then
      (h, { st1 with probed := h :: st1.probed })
    else
      (st1.nextId, { st1 with engines := setEng st1.engines engine_path st1.nextId,
                              nextId := st1.nextId + 1 })
  | none => (0, st1)  -- unreachable: `ensureEngine` has made the entry present

/-- `instantiate_engine` (src/pygn_server.py lines 50-57). -/
def instantiate_engine (o : Oracle B) (st : ServerState) (engine_path : String) :
    Nat × ServerState :=
  pingStep o (ensureEngine st engine_path) engine_path

/-- One `e.quit()` pass over the listed handles: a quit on a live handle
whose transport succeeds marks it terminated; any failure (handle already
terminated, or transport error) is swallowed by the bare except and the
loop proceeds to the remaining handles. -/
def quitAll (o : Oracle B) : List Nat → List Nat → List Nat
  | [], term => term
  | h :: hs, term =>
    quitAll o hs (if o.quitOk h && !(term.contains h) then h :: term else term)

/-- `cleanup` (src/pygn_server.py lines 59-64): ask every engine in the
pool to quit, ignoring individual failures.  Returns the updated state and
the list of handles for which termination was attempted, in pool order. -/
def cleanup (o : Oracle B) (st : ServerState) : ServerState × List Nat :=
  let attempts := st.engines.map (·.2)
  ({ st with terminated := quitAll o attempts st.terminated }, attempts)

/-- Python `print(x)` on a callback result: returning `None` prints the
literal text `None` on standard output. -/
def pyStr : Option String → String
  | some s => s
  | none => "None"

/-- `pgn_to_fen_callback` (src/pygn_server.py lines 87-88). -/
def pgn_to_fen_callback (ch : Chess G B M) (_game : G) (board : B)
    (_last_move : Option M) (_args : Args) : Option String :=
  some (":fen " ++ ch.fen board)

/-- `pgn_to_board_callback` (src/pygn_server.py lines 66-85): svg or text
rendering of the final board — the argparse values are singleton lists and
the code reads index 0 — or, for any other format value, a diagnostic on
the error stream and a `None` return.  The second component is the stderr
output. -/
def pgn_to_board_callback (ch : Chess G B M) (_game : G) (board : B)
    (last_move : Option M) (args : Args) : Option String × List String :=
  if args.board_format.headD "" = "svg" then
    (some (":board-svg " ++ ch.svg board last_move (args.pixels.headD 0)), [])
  else if args.board_format.headD "" = "text" then
    (some (":board-text " ++ boardTextTransform (ch.unicode_b board)), [])
  else
    (none, ["Bad pgn-mode -board_format value: " ++ args.board_format.headD ""])

/-- `pgn_to_score_callback` (src/pygn_server.py lines 90-93): obtain a
handle via `instantiate_engine`, run a depth-limited analysis, and format
the score.  A `none` analysis result models a raised exception, which is
not caught anywhere. -/
def pgn_to_score_callback (_ch : Chess G B M) (o : Oracle B) (st : ServerState)
    (_game : G) (board : B) (_last_move : Option M) (args : Args) :
    Option String × ServerState :=
  match o.analyse (instantiate_engine o st (args.engine.headD "")).1 board
      (args.depth.headD 0) with
  | some s =>
    (some (":score " ++ s), (instantiate_engine o st (args.engine.headD "")).2)
  | none => (none, (instantiate_engine o st (args.engine.headD "")).2)

/-- `pgn_to_mainline_callback` (src/pygn_server.py lines 95-102): export
the game without headers, variations or comments, then strip the trailing
result marker with `re.sub(r'\s+\S+\Z', '', mainline)`. -/
def pgn_to_mainline_callback (ch : Chess G B M) (game : G) (_board : B)
    (_last_move : Option M) (_args : Args) : Option String :=
  some (":san " ++ stripResult (ch.accept_clean game))

/-- Game/board construction shared by all handlers (src/pygn_server.py
lines 148-157): unescape literal backslash-n sequences, append two
newlines, parse, and replay the main line from the initial board while
tracking the last move pushed (the Python `False` sentinel, modelled
`none`, when there are no moves).  A `none` parse means `game` is Python
`None`, so the subsequent `game.board()` call raises. -/
def buildGame (ch : Chess G B M) (payload : String) : Option (G × B × Option M) :=
  let pgn : String := ⟨unescNL payload.data⟩ ++ "\n\n"
  match ch.read_game pgn with
  | none => none
  | some game =>
    let bl := (ch.mainline_moves game).foldl
      (fun (bl : B × Option M) move => (ch.push bl.1 move, some move))
      (ch.board0 game, none)
    some (game, bl.1, bl.2)

/-- Tags for the `CALLBACKS` dispatch dict. -/
inductive Cb
  | fen | board | score | mainline
  deriving DecidableEq

/-- The `CALLBACKS` dict built in `__main__` (src/pygn_server.py
lines 202-207). -/
def CALLBACKS : List (String × Cb) :=
  [(":pgn-to-fen", .fen), (":pgn-to-board", .board),
   (":pgn-to-score", .score), (":pgn-to-mainline", .mainline)]

/-- What the loop does after one line: continue, break (end of input), or
die with an uncaught exception. -/
inductive Control
  | next | halt | crash
  deriving DecidableEq

/-- Observable outcome of handling one line read from standard input. -/
structure StepOut where
  stdout : List String
  stderr : List String
  state : ServerState
  ctrl : Control
  deriving DecidableEq

/-- One iteration of `listen` (src/pygn_server.py lines 111-160) on the
line returned by `readline`: an empty read is end of input (run cleanup,
break); a bare newline is skipped; otherwise search for the request
pattern, check the command against `CALLBACKS`, parse the options, check
the payload type, build the game, and print the selected callback's return
value on standard output. -/
def processLine (ch : Chess G B M) (o : Oracle B) (st : ServerState)
    (input_str : String) : StepOut :=
  if input_str.length = 0 then
    { stdout := [], stderr := [], state := (cleanup o st).1, ctrl := .halt }
  else if input_str = "\n" then
    { stdout := [], stderr := [], state := st, ctrl := .next }
  else
    match searchRequest input_str with
    | none =>
      { stdout := [], stderr := ["Bad pgn-mode python process input: " ++ input_str],
        state := st, ctrl := .next }
    | some m =>
      match List.lookup m.command CALLBACKS with
      | none =>
        { stdout := [], stderr := ["Bad request command (unknown): " ++ m.command],
          state := st, ctrl := .next }
      | some cb =>
        match parseOptions m.opts with
        | none =>
          { stdout := [], stderr := ["Bad request options: " ++ m.opts],
            state := st, ctrl := .next }
        | some args =>
          if m.ptype = ":pgn" then
            match buildGame ch m.payload with
            | none =>
              -- game is None here, so game.board() raises AttributeError;
              -- nothing inside listen catches it
              { stdout := [], stderr := [], state := st, ctrl := .crash }
            | some (game, board, last_move) =>
              match cb with
              | .fen =>
                { stdout := [pyStr (pgn_to_fen_callback ch game board last_move args)],
                  stderr := [], state := st, ctrl := .next }
              | .board =>
                let r := pgn_to_board_callback ch game board last_move args
                { stdout := [pyStr r.1], stderr := r.2, state := st, ctrl := .next }
              | .score =>
                match pgn_to_score_callback ch o st game board last_move args with
                | (some reply, st2) =>
                  { stdout := [reply], stderr := [], state := st2, ctrl := .next }
                | (none, st2) =>
                  -- engine.analyse raised; the exception is uncaught
                  { stdout := [], stderr := [], state := st2, ctrl := .crash }
              | .mainline =>
                { stdout := [pyStr (pgn_to_mainline_callback ch game board last_move args)],
                  stderr := [], state := st, ctrl := .next }
          else
            { stdout := [], stderr := ["Bad request :payload-type (unknown): " ++ m.ptype],
              state := st, ctrl := .next }

/-- The `listen` loop run against a list of input lines; an exhausted list
behaves as end of input (readline returns the empty string).  Returns the
accumulated stdout lines, stderr lines and the final state. -/
def runServer (ch : Chess G B M) (o : Oracle B) :
    ServerState → List String → List String × List String × ServerState
  | st, [] =>
    let r := processLine ch o st ""
    (r.stdout, r.stderr, r.state)
  | st, line :: rest =>
    let r := processLine ch o st line
    match r.ctrl with
    | .next =>
      let k := runServer ch o r.state rest
      (r.stdout ++ k.1, r.stderr ++ k.2.1, k.2.2)
    | .halt => (r.stdout, r.stderr, r.state)
    | .crash => (r.stdout, r.stderr, r.state)

/-- The process-exit hooks registered in `__main__`: the single
`atexit.register(cleanup)` call at src/pygn_server.py line 209. -/
def atexitHooks (o : Oracle B) : List (ServerState → ServerState) :=
  [fun st => (cleanup o st).1]

/-- The reply-grammar marker a given command's reply must start with
(for the board command it depends on the requested format). -/
def replyTag (cb : Cb) (bf : String) : String :=
  match cb with
  | .fen => ":fen "
  | .board => if bf = "svg" then ":board-svg " else ":board-text "
  | .score => ":score "
  | .mainline => ":san "

/-- The handle stored for a path after the ensure-present step of
`instantiate_engine` — the handle that the `ping` is sent to. -/
def pingeeOf (st : ServerState) (path : String) : Nat :=
  (lookupEng st.engines path).getD st.nextId

/-- The stripping operation as claim C6 words it: remove the single
trailing non-whitespace token together with any — possibly absent —
preceding whitespace, so that a bare result marker is removed as well.
Stated from the claim's words, to be compared with `stripResult`, which is
modelled from the code. -/
def claimStripC6 (s : String) : String :=
  let r := s.data.reverse
  let t := r.takeWhile notSpace
  let w := (r.drop t.length).takeWhile isPySpace
  if t.length = 0 then s
  else ⟨(r.drop (t.length + w.length)).reverse⟩

/-- A trivial chess-library instance for concrete evaluations: parsing
always succeeds, games have no moves, and every rendering is a fixed short
string; the exported movetext of the empty game is the bare result marker,
as the python-chess `StringExporter` produces. -/
def chessUnit : Chess Unit Unit Unit where
  read_game := fun _ => some ()
  board0 := fun _ => ()
  mainline_moves := fun _ => []
  push := fun _ _ => ()
  fen := fun _ => "F"
  svg := fun _ _ _ => "S"
  unicode_b := fun _ => "U"
  accept_clean := fun _ => "*"

/-- A chess-library instance whose parser finds no game in any text, as
python-chess does on input consisting only of blank lines. -/
def chessNone : Chess Unit Unit Unit :=
  { chessUnit with read_game := fun _ => none }

/-- A chess-library instance with a two-move main line over list boards,
exercising the replay fold; its exported movetext carries a result
marker preceded by whitespace. -/
def chessMoves : Chess Unit (List Nat) Nat where
  read_game := fun _ => some ()
  board0 := fun _ => []
  mainline_moves := fun _ => [5, 7]
  push := fun b mv => b ++ [mv]
  fen := fun _ => "F"
  svg := fun _ _ _ => "S"
  unicode_b := fun _ => "U"
  accept_clean := fun _ => "1. x y *"

/-- An engine world where every ping and quit succeeds and analysis always
returns a fixed score text. -/
def oracleUp : Oracle Unit where
  pingOk := fun _ => true
  analyse := fun _ _ _ => some "Cp(+20)"
  quitOk := fun _ => true

/-- An engine world where every ping fails. -/
def oracleDown : Oracle Unit :=
  { oracleUp with pingOk := fun _ => false }

/-- A live engine world over list boards, matching `chessMoves`. -/
def oracleMoves : Oracle (List Nat) where
  pingOk := fun _ => true
  analyse := fun _ _ _ => some "Cp(+20)"
  quitOk := fun _ => true

/-- The initial server state: empty pool, no spawned handles. -/
def st0 : ServerState :=
  { engines := [], nextId := 0, probed := [], terminated := [] }

/-! Helper lemmas about the matcher combinators. -/

theorem runLen_le_length (p : Char → Bool) : ∀ l : List Char, runLen p l ≤ l.length := by
  intro l
  induction l with
  | nil => simp [runLen]
  | cons c cs ih =>
    simp only [runLen, List.length_cons]
    split
    · omega
    · omega

theorem all_of_take_runLen (p : Char → Bool) :
    ∀ (l : List Char) (j : Nat), j ≤ runLen p l → ∀ c ∈ l.take j, p c = true := by
  intro l
  induction l with
  | nil => simp
  | cons a t ih =>
    intro j hj c hc
    cases j with
    | zero => simp at hc
    | succ j2 =>
      simp only [runLen] at hj
      by_cases hpa : p a
      · rw [if_pos hpa] at hj
        simp only [List.take_succ_cons, List.mem_cons] at hc
        rcases hc with rfl | hc
        · exact hpa
        · exact ih j2 (by omega) c hc
      · rw [if_neg hpa] at hj
        omega

theorem pLit_sound {α} {c : Char} {k : List Char → Option α} {s : List Char} {r : α}
    (h : pLit c k s = some r) : ∃ rest, s = c :: rest ∧ k rest = some r := by
  cases s with
  | nil => simp [pLit] at h
  | cons a rest =>
    by_cases hac : a = c
    · subst hac
      refine ⟨rest, rfl, ?_⟩
      simpa [pLit] using h
    · simp [pLit, hac] at h

theorem pCls_sound {α} {p : Char → Bool} {k : Char → List Char → Option α}
    {s : List Char} {r : α} (h : pCls p k s = some r) :
    ∃ a rest, s = a :: rest ∧ p a = true ∧ k a rest = some r := by
  cases s with
  | nil => simp [pCls] at h
  | cons a rest =>
    by_cases hpa : p a
    · exact ⟨a, rest, rfl, hpa, by simpa [pCls, hpa] using h⟩
    · simp [pCls, hpa] at h

theorem pPlus_sound {α} {p : Char → Bool} {k : List Char → List Char → Option α}
    {s : List Char} {r : α} (h : pPlus p k s = some r) :
    ∃ w rest, s = w ++ rest ∧ w ≠ [] ∧ (∀ c ∈ w, p c = true) ∧ k w rest = some r := by
  unfold pPlus at h
  obtain ⟨i, hi, hk⟩ := List.exists_of_findSome?_eq_some h
  rw [List.mem_range] at hi
  refine ⟨s.take (runLen p s - i), s.drop (runLen p s - i),
    (List.take_append_drop _ _).symm, ?_, ?_, hk⟩
  · intro hnil
    rw [List.take_eq_nil_iff] at hnil
    rcases hnil with h0 | h0
    · omega
    · subst h0
      simp [runLen] at hi
  · exact all_of_take_runLen p s _ (by omega)

theorem pStarLazy_sound {α} {p : Char → Bool} {k : List Char → List Char → Option α}
    {s : List Char} {r : α} (h : pStarLazy p k s = some r) :
    ∃ w rest, s = w ++ rest ∧ (∀ c ∈ w, p c = true) ∧ k w rest = some r := by
  unfold pStarLazy at h
  obtain ⟨i, hi, hk⟩ := List.exists_of_findSome?_eq_some h
  rw [List.mem_range] at hi
  exact ⟨s.take i, s.drop i, (List.take_append_drop _ _).symm,
    all_of_take_runLen p s i (by omega), hk⟩

theorem pStarGreedy_sound {α} {p : Char → Bool} {k : List Char → List Char → Option α}
    {s : List Char} {r : α} (h : pStarGreedy p k s = some r) :
    ∃ w rest, s = w ++ rest ∧ (∀ c ∈ w, p c = true) ∧ k w rest = some r := by
  unfold pStarGreedy at h
  obtain ⟨i, hi, hk⟩ := List.exists_of_findSome?_eq_some h
  rw [List.mem_range] at hi
  exact ⟨s.take (runLen p s - i), s.drop (runLen p s - i),
    (List.take_append_drop _ _).symm, all_of_take_runLen p s _ (by omega), hk⟩

/-- Decomposition of a successful anchored match of the request pattern:
the input starts with a command token, then the lazily captured option
text, then whitespace, the double dash, whitespace, the payload-type
token, whitespace, and the payload running up to a newline. -/
theorem matchRequestAt_sound {s : List Char} {m : Req} (h : matchRequestAt s = some m) :
    ∃ w1 g2 sp1 sp2 w3 sp3 c4 g4r tail,
      s = ':' :: (w1 ++ (g2 ++ (sp1 ++ '-' :: '-' ::
        (sp2 ++ ':' :: (w3 ++ (sp3 ++ c4 :: (g4r ++ '\n' :: tail)))))))
      ∧ w1 ≠ [] ∧ (∀ c ∈ w1, notSpace c = true)
      ∧ (∀ c ∈ g2, notNL c = true)
      ∧ sp1 ≠ [] ∧ (∀ c ∈ sp1, isPySpace c = true)
      ∧ sp2 ≠ [] ∧ (∀ c ∈ sp2, isPySpace c = true)
      ∧ w3 ≠ [] ∧ (∀ c ∈ w3, notSpace c = true)
      ∧ sp3 ≠ [] ∧ (∀ c ∈ sp3, isPySpace c = true)
      ∧ notSpace c4 = true ∧ (∀ c ∈ g4r, notNL c = true)
      ∧ m = { command := ⟨':' :: w1⟩, opts := ⟨g2⟩,
              ptype := ⟨':' :: w3⟩, payload := ⟨c4 :: g4r⟩ } := by
  unfold matchRequestAt at h
  obtain ⟨s1, rfl, h1⟩ := pLit_sound h
  obtain ⟨w1, s2, rfl, hw1ne, hw1, h2⟩ := pPlus_sound h1
  obtain ⟨g2, s3, rfl, hg2, h3⟩ := pStarLazy_sound h2
  obtain ⟨sp1, s4, rfl, hsp1ne, hsp1, h4⟩ := pPlus_sound h3
  obtain ⟨s5, rfl, h5⟩ := pLit_sound h4
  obtain ⟨s6, rfl, h6⟩ := pLit_sound h5
  obtain ⟨sp2, s7, rfl, hsp2ne, hsp2, h7⟩ := pPlus_sound h6
  obtain ⟨s8, rfl, h8⟩ := pLit_sound h7
  obtain ⟨w3, s9, rfl, hw3ne, hw3, h9⟩ := pPlus_sound h8
  obtain ⟨sp3, s10, rfl, hsp3ne, hsp3, h10⟩ := pPlus_sound h9
  obtain ⟨c4, s11, rfl, hc4, h11⟩ := pCls_sound h10
  obtain ⟨g4r, s12, rfl, hg4r, h12⟩ := pStarGreedy_sound h11
  obtain ⟨tail, rfl, h13⟩ := pLit_sound h12
  refine ⟨w1, g2, sp1, sp2, w3, sp3, c4, g4r, tail, rfl, hw1ne, hw1, hg2,
    hsp1ne, hsp1, hsp2ne, hsp2, hw3ne, hw3, hsp3ne, hsp3, hc4, hg4r, ?_⟩
  exact (Option.some.injEq _ _ ▸ h13).symm

/-- A successful `re.search` is an anchored match at some split point. -/
theorem pySearch_sound {s : List Char} {m : Req} (h : pySearch s = some m) :
    ∃ pre suf, s = pre ++ suf ∧ matchRequestAt suf = some m := by
  induction s with
  | nil => exact ⟨[], [], rfl, h⟩
  | cons c rest ih =>
    rw [pySearch] at h
    cases hm : matchRequestAt (c :: rest) with
    | some r =>
      rw [hm] at h
      exact ⟨[], c :: rest, rfl, by rw [hm]; exact h⟩
    | none =>
      rw [hm] at h
      obtain ⟨pre, suf, heq, hsuf⟩ := ih h
      exact ⟨c :: pre, suf, by rw [List.cons_append, ← heq], hsuf⟩

/-! Helper lemmas about the replay fold of `buildGame`. -/

theorem foldl_push_fst {B M} (push : B → M → B) (ms : List M) :
    ∀ (b : B) (l : Option M),
      (ms.foldl (fun (bl : B × Option M) move => (push bl.1 move, some move)) (b, l)).1 =
        ms.foldl push b := by
  induction ms with
  | nil => intro b l; rfl
  | cons m t ih => intro b l; simpa using ih (push b m) (some m)

theorem foldl_push_snd {B M} (push : B → M → B) (ms : List M) :
    ∀ (b : B) (l : Option M),
      (ms.foldl (fun (bl : B × Option M) move => (push bl.1 move, some move)) (b, l)).2 =
        ms.getLast?.or l := by
  induction ms with
  | nil => intro b l; rfl
  | cons m t ih =>
    intro b l
    simp only [List.foldl_cons]
    rw [ih]
    cases t with
    | nil => simp
    | cons x xs =>
      rw [List.getLast?_cons_cons]
      have hys : ((x :: xs).getLast?).isSome := List.getLast?_isSome.mpr (by simp)
      obtain ⟨y, hy⟩ := Option.isSome_iff_exists.mp hys
      rw [hy]
      rfl

/-! Helper lemmas about `quitAll` and `cleanup`. -/

theorem mem_quitAll_of_mem {B} (o : Oracle B) (hs : List Nat) :
    ∀ term x, x ∈ term → x ∈ quitAll o hs term := by
  induction hs with
  | nil => intro term x hx; exact hx
  | cons h t ih =>
    intro term x hx
    rw [quitAll]
    apply ih
    split
    · exact List.mem_cons_of_mem _ hx
    · exact hx

theorem quitOk_mem_quitAll {B} (o : Oracle B) (hs : List Nat) :
    ∀ term h, h ∈ hs → o.quitOk h = true → h ∈ quitAll o hs term := by
  induction hs with
  | nil => simp
  | cons a t ih =>
    intro term h hmem hq
    rw [quitAll]
    rcases List.mem_cons.mp hmem with rfl | hmem2
    · by_cases hc : h ∈ term
      · apply mem_quitAll_of_mem
        split
        · exact List.mem_cons_of_mem _ hc
        · exact hc
      · apply mem_quitAll_of_mem
        have hcontains : term.contains h = false := by
          rw [← Bool.not_eq_true]
          intro habs
          exact hc (List.elem_iff.mp habs)
        rw [if_pos (by rw [hq, hcontains]; rfl)]
        exact List.mem_cons_self _ _
    · exact ih _ _ hmem2 hq

theorem quitAll_fixed {B} (o : Oracle B) (hs : List Nat) :
    ∀ term, (∀ h ∈ hs, o.quitOk h = true → h ∈ term) → quitAll o hs term = term := by
  induction hs with
  | nil => intro term _; rfl
  | cons a t ih =>
    intro term hall
    rw [quitAll]
    have hstep : (if o.quitOk a && !(term.contains a) then a :: term else term) = term := by
      by_cases hq : o.quitOk a
      · have hmem : a ∈ term := hall a (List.mem_cons_self _ _) hq
        have hc : term.contains a = true := List.elem_iff.mpr hmem
        rw [if_neg (by rw [hq, hc]; simp)]
      · rw [if_neg (by rw [Bool.not_eq_true] at hq; rw [hq]; simp)]
    rw [hstep]
    exact ih term fun h hmem hq => hall h (List.mem_cons_of_mem _ hmem) hq

theorem cleanup_engines {B} (o : Oracle B) (st : ServerState) :
    (cleanup o st).1.engines = st.engines := rfl

theorem cleanup_idem {B} (o : Oracle B) (st : ServerState) :
    cleanup o (cleanup o st).1 = cleanup o st := by
  unfold cleanup
  simp only
  have hfix : quitAll o (List.map (fun x => x.2) st.engines)
      (quitAll o (List.map (fun x => x.2) st.engines) st.terminated) =
      quitAll o (List.map (fun x => x.2) st.engines) st.terminated :=
    quitAll_fixed o _ _ fun h hmem hq => quitOk_mem_quitAll o _ _ h hmem hq
  rw [hfix]

/-! Helper lemmas about the engines dict and `instantiate_engine`. -/

theorem lookupEng_setEng_self (l : List (String × Nat)) (k : String) (v : Nat) :
    lookupEng (setEng l k v) k = some v := by
  induction l with
  | nil => simp [setEng, lookupEng]
  | cons p t ih =>
    obtain ⟨k2, v2⟩ := p
    rw [setEng]
    by_cases hk : k = k2
    · rw [if_pos hk, lookupEng, if_pos hk]
    · rw [if_neg hk, lookupEng, if_neg hk]
      exact ih

theorem lookupEng_setEng_isSome (l : List (String × Nat)) (k k2 : String) (v : Nat)
    (h : (lookupEng l k2).isSome) : (lookupEng (setEng l k v) k2).isSome := by
  induction l with
  | nil => simp [lookupEng] at h
  | cons p t ih =>
    obtain ⟨k3, v3⟩ := p
    rw [setEng]
    by_cases hk : k = k3
    · rw [if_pos hk]
      rw [lookupEng] at h ⊢
      by_cases hk2 : k2 = k3
      · rw [if_pos hk2]; rfl
      · rw [if_neg hk2] at h ⊢; exact h
    · rw [if_neg hk]
      rw [lookupEng] at h ⊢
      by_cases hk2 : k2 = k3
      · rw [if_pos hk2] at h ⊢; exact h
      · rw [if_neg hk2] at h ⊢; exact ih h

theorem ensureEngine_lookup (st : ServerState) (path : String) :
    lookupEng (ensureEngine st path).engines path = some (pingeeOf st path) := by
  unfold ensureEngine pingeeOf
  by_cases hp : (lookupEng st.engines path).isSome
  · rw [if_pos hp]
    obtain ⟨h0, hh0⟩ := Option.isSome_iff_exists.mp hp
    rw [hh0]
    rfl
  · rw [if_neg hp]
    have hnone : lookupEng st.engines path = none := Option.not_isSome_iff_eq_none.mp hp
    rw [hnone]
    exact lookupEng_setEng_self _ _ _

theorem ensureEngine_mono (st : ServerState) (path k : String)
    (h : (lookupEng st.engines k).isSome) :
    (lookupEng (ensureEngine st path).engines k).isSome := by
  unfold ensureEngine
  split
  · exact h
  · exact lookupEng_setEng_isSome _ _ _ _ h

theorem pingStep_stores {B} (o : Oracle B) (st1 : ServerState) (path : String) (h0 : Nat)
    (hl : lookupEng st1.engines path = some h0) :
    lookupEng (pingStep o st1 path).2.engines path = some (pingStep o st1 path).1 := by
  unfold pingStep
  simp only [hl]
  by_cases hping : o.pingOk h0
  · simp only [if_pos hping]
    exact hl
  · simp only [if_neg hping]
    exact lookupEng_setEng_self _ _ _

theorem pingStep_mono {B} (o : Oracle B) (st1 : ServerState) (path k : String)
    (h : (lookupEng st1.engines k).isSome) :
    (lookupEng (pingStep o st1 path).2.engines k).isSome := by
  unfold pingStep
  cases hl : lookupEng st1.engines path with
  | none => exact h
  | some h0 =>
    by_cases hping : o.pingOk h0
    · simp only [if_pos hping]
      exact h
    · simp only [if_neg hping]
      exact lookupEng_setEng_isSome _ _ _ _ h

theorem instantiate_engine_stores {B} (o : Oracle B) (st : ServerState) (path : String) :
    lookupEng (instantiate_engine o st path).2.engines path =
      some (instantiate_engine o st path).1 :=
  pingStep_stores o _ path (pingeeOf st path) (ensureEngine_lookup st path)

theorem instantiate_engine_mono {B} (o : Oracle B) (st : ServerState) (path k : String)
    (h : (lookupEng st.engines k).isSome) :
    (lookupEng (instantiate_engine o st path).2.engines k).isSome :=
  pingStep_mono o _ path k (ensureEngine_mono st path k h)

theorem score_callback_state {G B M} (ch : Chess G B M) (o : Oracle B) (st : ServerState)
    (game : G) (board : B) (lm : Option M) (args : Args) :
    (pgn_to_score_callback ch o st game board lm args).2 =
      (instantiate_engine o st (args.engine.headD "")).2 := by
  unfold pgn_to_score_callback
  split <;> rfl

/-! Helper lemmas about `stripResult` and `escNL`. -/

theorem takeWhile_all (p : Char → Bool) :
    ∀ l : List Char, (∀ c ∈ l, p c = true) → l.takeWhile p = l := by
  intro l
  induction l with
  | nil => intro _; rfl
  | cons a tl ih =>
    intro h
    rw [List.takeWhile_cons_of_pos (h a (List.mem_cons_self _ _)), ih]
    intro c hc
    exact h c (List.mem_cons_of_mem _ hc)

/-- Where the code's strip regex `\s+\S+\Z` matches: an input of the form
`body ++ whitespace ++ token`, with both trailing runs nonempty and maximal
(the body is empty or ends in a non-space character), loses exactly the
whitespace and the token. -/
theorem stripResult_strips (s : String) (body w t : List Char)
    (hdata : s.data = body ++ (w ++ t))
    (hwne : w ≠ []) (hw : ∀ c ∈ w, isPySpace c = true)
    (htne : t ≠ []) (ht : ∀ c ∈ t, notSpace c = true)
    (hbody : body = [] ∨ ∃ b2 cb, body = b2 ++ [cb] ∧ isPySpace cb = false) :
    stripResult s = ⟨body⟩ := by
  have hrev : (body ++ (w ++ t)).reverse = t.reverse ++ (w.reverse ++ body.reverse) := by
    simp [List.reverse_append]
  have htake1 : (body ++ (w ++ t)).reverse.takeWhile notSpace = t.reverse := by
    rw [hrev]
    rw [List.takeWhile_append_of_pos (fun c hc => ht c (List.mem_reverse.mp hc))]
    obtain ⟨cw, wrest, hwrev⟩ : ∃ cw wrest, w.reverse = cw :: wrest := by
      cases hwr : w.reverse with
      | nil =>
        exact absurd (by simpa using congrArg List.reverse hwr) hwne
      | cons a b => exact ⟨a, b, rfl⟩
    have hcw : cw ∈ w := List.mem_reverse.mp (hwrev ▸ List.mem_cons_self cw wrest)
    rw [hwrev, List.cons_append, List.takeWhile_cons_of_neg (by simp [notSpace, hw cw hcw]),
      List.append_nil]
  have hdrop1 : (body ++ (w ++ t)).reverse.drop t.length = w.reverse ++ body.reverse := by
    rw [hrev]
    exact List.drop_left' (by simp)
  have htake2 : (w.reverse ++ body.reverse).takeWhile isPySpace = w.reverse := by
    rw [List.takeWhile_append_of_pos (fun c hc => hw c (List.mem_reverse.mp hc))]
    rcases hbody with rfl | ⟨b2, cb, rfl, hcb⟩
    · simp
    · rw [show (b2 ++ [cb]).reverse = cb :: b2.reverse by simp]
      rw [List.takeWhile_cons_of_neg (by simp [hcb]), List.append_nil]
  have hdrop2 : (body ++ (w ++ t)).reverse.drop (t.length + w.length) = body.reverse := by
    rw [show (body ++ (w ++ t)).reverse = (t.reverse ++ w.reverse) ++ body.reverse by
      simp [List.reverse_append]]
    exact List.drop_left' (by simp)
  unfold stripResult
  simp only [hdata, htake1, List.length_reverse, hdrop1, htake2]
  rw [if_neg]
  · rw [hdrop2, List.reverse_reverse]
  · simp [List.length_eq_zero, htne, hwne]

/-- Where the code's strip regex has no match: an input consisting only of
non-whitespace characters — in particular the bare result marker exported
for a game with no moves — is left unchanged. -/
theorem stripResult_bare (s : String) (hall : ∀ c ∈ s.data, notSpace c = true) :
    stripResult s = s := by
  unfold stripResult
  have htake : s.data.reverse.takeWhile notSpace = s.data.reverse :=
    takeWhile_all notSpace _ (fun c hc => hall c (List.mem_reverse.mp hc))
  simp only [htake, List.length_reverse]
  rw [if_pos]
  have : s.data.reverse.drop s.data.length = [] := by
    rw [← List.length_reverse]
    exact List.drop_length _
  simp [this]

theorem mem_of_mem_stripResult (s : String) (c : Char)
    (hc : c ∈ (stripResult s).data) : c ∈ s.data := by
  unfold stripResult at hc
  simp only [] at hc
  split at hc
  · exact hc
  · have : c ∈ (s.data.reverse.drop _).reverse := hc
    rw [List.mem_reverse] at this
    exact List.mem_reverse.mp (List.mem_of_mem_drop this)

theorem escNL_no_newline : ∀ l : List Char, '\n' ∉ escNL l := by
  intro l
  induction l with
  | nil => simp [escNL]
  | cons c rest ih =>
    rw [escNL]
    by_cases hc : c = '\n'
    · subst hc
      rw [if_pos rfl]
      intro hmem
      rcases List.mem_cons.mp hmem with h | hmem2
      · exact absurd h (by decide)
      rcases List.mem_cons.mp hmem2 with h | hmem3
      · exact absurd h (by decide)
      · exact ih hmem3
    · rw [if_neg hc]
      intro hmem
      rcases List.mem_cons.mp hmem with h | hmem2
      · exact hc h.symm
      · exact ih hmem2

/-! Lemmas used to discharge the leading checks of `processLine`. -/

theorem searchRequest_empty : searchRequest "" = none := by decide

theorem searchRequest_newline : searchRequest "\n" = none := by decide

theorem searchRequest_some_ne (line : String) (m : Req)
    (h : searchRequest line = some m) : line.length ≠ 0 ∧ line ≠ "\n" := by
  constructor
  · intro h0
    have hempty : line = "" := by
      cases line with
      | mk data =>
        cases data with
        | nil => rfl
        | cons a b => simp [String.length] at h0
    rw [hempty, searchRequest_empty] at h
    exact Option.noConfusion h
  · intro h1
    rw [h1, searchRequest_newline] at h
    exact Option.noConfusion h

theorem ensureEngine_probed (st : ServerState) (path : String) :
    (ensureEngine st path).probed = st.probed := by
  unfold ensureEngine
  split <;> rfl

theorem ensureEngine_nextId_ge (st : ServerState) (path : String) :
    st.nextId ≤ (ensureEngine st path).nextId := by
  unfold ensureEngine
  split
  · exact Nat.le_refl _
  · exact Nat.le_succ _

theorem ensureEngine_nextId_absent (st : ServerState) (path : String)
    (h : lookupEng st.engines path = none) :
    (ensureEngine st path).nextId = st.nextId + 1 := by
  unfold ensureEngine
  rw [if_neg (by simp [h])]

theorem no_newline_append (a b : String) (ha : '\n' ∉ a.data) (hb : '\n' ∉ b.data) :
    '\n' ∉ (a ++ b).data := by
  rw [String.data_append]
  intro h
  rcases List.mem_append.mp h with h2 | h2
  · exact ha h2
  · exact hb h2

theorem boardTextTransform_no_newline (s : String) :
    '\n' ∉ (boardTextTransform s).data := by
  unfold boardTextTransform
  simp only []
  exact escNL_no_newline _

/-- Handling of a fully well-formed request line: `processLine` reaches the
dispatch on the looked-up callback with the game, final board and last move
produced by `buildGame`. -/
theorem processLine_wf {G B M} (ch : Chess G B M) (o : Oracle B) (st : ServerState)
    (line : String) (m : Req) (cb : Cb) (args : Args) (game : G) (board : B)
    (lm : Option M)
    (hs : searchRequest line = some m)
    (hcb : List.lookup m.command CALLBACKS = some cb)
    (hopt : parseOptions m.opts = some args)
    (hpt : m.ptype = ":pgn")
    (hbg : buildGame ch m.payload = some (game, board, lm)) :
    processLine ch o st line =
      match cb with
      | .fen =>
        { stdout := [pyStr (pgn_to_fen_callback ch game board lm args)],
          stderr := [], state := st, ctrl := .next }
      | .board =>
        { stdout := [pyStr (pgn_to_board_callback ch game board lm args).1],
          stderr := (pgn_to_board_callback ch game board lm args).2,
          state := st, ctrl := .next }
      | .score =>
        match pgn_to_score_callback ch o st game board lm args with
        | (some reply, st2) =>
          { stdout := [reply], stderr := [], state := st2, ctrl := .next }
        | (none, st2) =>
          { stdout := [], stderr := [], state := st2, ctrl := .crash }
      | .mainline =>
        { stdout := [pyStr (pgn_to_mainline_callback ch game board lm args)],
          stderr := [], state := st, ctrl := .next } := by
  obtain ⟨hlen, hnl⟩ := searchRequest_some_ne line m hs
  unfold processLine
  rw [if_neg hlen, if_neg hnl]
  simp only [hs, hcb, hopt, if_pos hpt, hbg]
  cases cb <;> rfl

/-- Handling of a grammar-conforming request whose payload yields no game:
`game` is Python `None`, `game.board()` raises, and the step dies with
nothing printed. -/
theorem processLine_parse_crash {G B M} (ch : Chess G B M) (o : Oracle B)
    (st : ServerState) (line : String) (m : Req) (cb : Cb) (args : Args)
    (hs : searchRequest line = some m)
    (hcb : List.lookup m.command CALLBACKS = some cb)
    (hopt : parseOptions m.opts = some args)
    (hpt : m.ptype = ":pgn")
    (hbg : buildGame ch m.payload = none) :
    processLine ch o st line =
      { stdout := [], stderr := [], state := st, ctrl := .crash } := by
  obtain ⟨hlen, hnl⟩ := searchRequest_some_ne line m hs
  unfold processLine
  rw [if_neg hlen, if_neg hnl]
  simp only [hs, hcb, hopt, if_pos hpt, hbg]

/-- The state after one step is the old state, the old state after cleanup,
or the old state after an `instantiate_engine` call. -/
theorem processLine_state_cases {G B M} (ch : Chess G B M) (o : Oracle B)
    (st : ServerState) (line : String) :
    (processLine ch o st line).state = st
    ∨ (processLine ch o st line).state = (cleanup o st).1
    ∨ ∃ p, (processLine ch o st line).state = (instantiate_engine o st p).2 := by
  unfold processLine
  repeat' split
  all_goals first
    | (left; rfl)
    | (right; left; rfl)
    | (right; right
       rename_i heq
       exact ⟨_, (congrArg Prod.snd heq).symm.trans
         (score_callback_state _ _ _ _ _ _ _)⟩)

/-! Claim theorems. -/

/-- C4: for every payload whose unescaped text (with the appended blank
line) parses to a game, the constructed values handed to the handler are
that game, the game's initial board with every mainline move pushed in
order, and the last mainline move — `none` when the game has no moves. -/
theorem c4_construction {G B M} (ch : Chess G B M) (payload : String) (game : G)
    (hp : ch.read_game ((⟨unescNL payload.data⟩ : String) ++ "\n\n") = some game) :
    buildGame ch payload =
      some (game, (ch.mainline_moves game).foldl ch.push (ch.board0 game),
        (ch.mainline_moves game).getLast?) := by
  unfold buildGame
  simp only [hp]
  rw [foldl_push_fst, foldl_push_snd, Option.or_none]

/-- Witness for C4 at a two-move instance. -/
theorem c4_witness :
    buildGame chessMoves "x" =
      some ((), (chessMoves.mainline_moves ()).foldl chessMoves.push (chessMoves.board0 ()),
        (chessMoves.mainline_moves ()).getLast?) :=
  c4_construction chessMoves "x" () (by decide)

/-- C7: processing any input line never removes a key from the engine pool:
every engine path present in the pool before the step is still present
after it, including across the in-place replacement a failed liveness probe
performs. -/
theorem c7_pool_monotone {G B M} (ch : Chess G B M) (o : Oracle B) (st : ServerState)
    (line : String) (k : String)
    (h : (lookupEng st.engines k).isSome) :
    (lookupEng (processLine ch o st line).state.engines k).isSome := by
  rcases processLine_state_cases ch o st line with hst | hst | ⟨p, hst⟩
  · rw [hst]; exact h
  · rw [hst, cleanup_engines]; exact h
  · rw [hst]; exact instantiate_engine_mono o st p k h

/-- Witness for C7: a pool holding a handle for path `"e"` still holds it
after a score request spawns and pings an engine at another path. -/
theorem c7_witness :
    (lookupEng
      (processLine chessUnit oracleUp
        { engines := [("e", 0)], nextId := 1, probed := [], terminated := [] }
        ":pgn-to-score -- :pgn x\n").state.engines "e").isSome :=
  c7_pool_monotone chessUnit oracleUp _ _ "e" (by decide)

/-- C5: `cleanup` asks every engine in the pool to quit, proceeding past
individual failures (the attempt list does not depend on quit outcomes); it
is idempotent; end-of-input runs it and halts the loop; and it is the
process-exit hook registered exactly once. -/
theorem c5_shutdown {B} (o : Oracle B) :
    (∀ st : ServerState, (cleanup o st).2 = st.engines.map (fun e => e.2))
    ∧ (∀ st : ServerState, cleanup o (cleanup o st).1 = cleanup o st)
    ∧ (∀ (G M : Type) (ch : Chess G B M) (st : ServerState),
        processLine ch o st "" =
          { stdout := [], stderr := [], state := (cleanup o st).1, ctrl := .halt })
    ∧ atexitHooks o = [fun st => (cleanup o st).1]
    ∧ (atexitHooks o).length = 1 := by
  refine ⟨fun st => rfl, fun st => cleanup_idem o st, fun G M ch st => ?_, rfl, rfl⟩
  unfold processLine
  rw [if_pos (show ("" : String).length = 0 from rfl)]

/-- C8: a well-formed `:pgn-to-fen` request leaves the state unchanged and
its reply depends only on the request line, so processing the same line
twice in succession prints the same single reply both times. -/
theorem c8_fen_idempotent {G B M} (ch : Chess G B M) (o : Oracle B) (st : ServerState)
    (line : String) (m : Req) (args : Args) (game : G) (board : B) (lm : Option M)
    (hs : searchRequest line = some m)
    (hcmd : m.command = ":pgn-to-fen")
    (hopt : parseOptions m.opts = some args)
    (hpt : m.ptype = ":pgn")
    (hbg : buildGame ch m.payload = some (game, board, lm)) :
    (processLine ch o (processLine ch o st line).state line).stdout =
      (processLine ch o st line).stdout
    ∧ (processLine ch o st line).stdout = [":fen " ++ ch.fen board] := by
  have hcb : List.lookup m.command CALLBACKS = some Cb.fen := by rw [hcmd]; rfl
  have h1 : processLine ch o st line =
      { stdout := [":fen " ++ ch.fen board], stderr := [], state := st,
        ctrl := .next } :=
    processLine_wf ch o st line m .fen args game board lm hs hcb hopt hpt hbg
  constructor
  · have hstate : (processLine ch o st line).state = st := by rw [h1]
    rw [hstate]
  · rw [h1]

/-- Witness for C8 at a concrete fen request. -/
theorem c8_witness :
    (processLine chessUnit oracleUp
        (processLine chessUnit oracleUp st0 ":pgn-to-fen -- :pgn x\n").state
        ":pgn-to-fen -- :pgn x\n").stdout =
      (processLine chessUnit oracleUp st0 ":pgn-to-fen -- :pgn x\n").stdout
    ∧ (processLine chessUnit oracleUp st0 ":pgn-to-fen -- :pgn x\n").stdout =
      [":fen " ++ chessUnit.fen ()] :=
  c8_fen_idempotent chessUnit oracleUp st0 _ ⟨":pgn-to-fen", "", ":pgn", "x"⟩ {} () () none
    (by decide) rfl (by decide) rfl (by decide)

/-- C2 (amended): `instantiate_engine` returns exactly the handle stored in
the pool for the path; a missing entry triggers a spawn; the stored handle
is pinged, and when the ping succeeds that handle is returned and recorded
as probed — but when the ping fails, the freshly respawned replacement is
stored and returned without itself having passed any liveness probe.  The
hypothesis is the state invariant that recorded probes concern already
spawned handles. -/
theorem c2_instantiate_engine {B} (o : Oracle B) (st : ServerState) (path : String)
    (hinv : ∀ n ∈ st.probed, n < st.nextId) :
    lookupEng (instantiate_engine o st path).2.engines path =
      some (instantiate_engine o st path).1
    ∧ (lookupEng st.engines path = none →
        st.nextId < (instantiate_engine o st path).2.nextId)
    ∧ (o.pingOk (pingeeOf st path) = true →
        (instantiate_engine o st path).1 = pingeeOf st path ∧
        (instantiate_engine o st path).1 ∈ (instantiate_engine o st path).2.probed)
    ∧ (o.pingOk (pingeeOf st path) = false →
        (instantiate_engine o st path).1 ∉ (instantiate_engine o st path).2.probed) := by
  refine ⟨instantiate_engine_stores o st path, ?_, ?_, ?_⟩
  · intro hnone
    unfold instantiate_engine pingStep
    simp only [ensureEngine_lookup st path]
    have h2 : (ensureEngine st path).nextId = st.nextId + 1 :=
      ensureEngine_nextId_absent st path hnone
    by_cases hping : o.pingOk (pingeeOf st path) = true
    · rw [if_pos hping]
      show st.nextId < (ensureEngine st path).nextId
      omega
    · rw [if_neg hping]
      show st.nextId < (ensureEngine st path).nextId + 1
      omega
  · intro hping
    unfold instantiate_engine pingStep
    simp only [ensureEngine_lookup st path]
    rw [if_pos hping]
    exact ⟨rfl, List.mem_cons_self _ _⟩
  · intro hping
    unfold instantiate_engine pingStep
    simp only [ensureEngine_lookup st path]
    rw [if_neg (by rw [hping]; exact Bool.false_ne_true)]
    show (ensureEngine st path).nextId ∉ (ensureEngine st path).probed
    rw [ensureEngine_probed]
    intro hmem
    have h1 := hinv _ hmem
    have h2 := ensureEngine_nextId_ge st path
    omega

/-- Witness for C2 at a live engine world and the empty pool. -/
theorem c2_witness :
    lookupEng (instantiate_engine oracleUp st0 "stockfish").2.engines "stockfish" =
      some (instantiate_engine oracleUp st0 "stockfish").1
    ∧ (lookupEng st0.engines "stockfish" = none →
        st0.nextId < (instantiate_engine oracleUp st0 "stockfish").2.nextId)
    ∧ (oracleUp.pingOk (pingeeOf st0 "stockfish") = true →
        (instantiate_engine oracleUp st0 "stockfish").1 = pingeeOf st0 "stockfish" ∧
        (instantiate_engine oracleUp st0 "stockfish").1 ∈
          (instantiate_engine oracleUp st0 "stockfish").2.probed)
    ∧ (oracleUp.pingOk (pingeeOf st0 "stockfish") = false →
        (instantiate_engine oracleUp st0 "stockfish").1 ∉
          (instantiate_engine oracleUp st0 "stockfish").2.probed) :=
  c2_instantiate_engine oracleUp st0 "stockfish"
    (fun n hn => absurd hn (List.not_mem_nil n))

/-- C2 counterexample: with every ping failing, the handle returned for a
fresh path is the respawned one, which has passed no liveness probe since
its creation — the stored handle is returned, but it is not known-live. -/
theorem c2_counterexample :
    (instantiate_engine oracleDown st0 "stockfish").1 ∉
      (instantiate_engine oracleDown st0 "stockfish").2.probed
    ∧ lookupEng (instantiate_engine oracleDown st0 "stockfish").2.engines "stockfish" =
        some (instantiate_engine oracleDown st0 "stockfish").1 := by
  decide

/-- C3: on a `:pgn-to-board` request with an unrecognized format value the
diagnostic naming the value goes to the error stream as the claim says, but
standard output is not silent: `print` of the callback's `None` return
emits the literal line `None`. -/
theorem c3_none_printed :
    (processLine chessUnit oracleUp st0
      ":pgn-to-board -board_format bogus -- :pgn 1. e4\n").stderr =
      ["Bad pgn-mode -board_format value: bogus"]
    ∧ (processLine chessUnit oracleUp st0
        ":pgn-to-board -board_format bogus -- :pgn 1. e4\n").stdout = ["None"] := by
  decide

/-- C6 (amended): the `:pgn-to-mainline` reply is `:san ` followed by the
clean export with `stripResult` applied, and `stripResult` removes the
trailing token exactly when a nonempty whitespace run precedes it — a bare
result marker, the whole export of a zero-move game, is left in place. -/
theorem c6_mainline_strip {G B M} (ch : Chess G B M) (o : Oracle B) (st : ServerState)
    (line : String) (m : Req) (args : Args) (game : G) (board : B) (lm : Option M)
    (hs : searchRequest line = some m)
    (hcmd : m.command = ":pgn-to-mainline")
    (hopt : parseOptions m.opts = some args)
    (hpt : m.ptype = ":pgn")
    (hbg : buildGame ch m.payload = some (game, board, lm)) :
    (processLine ch o st line).stdout = [":san " ++ stripResult (ch.accept_clean game)]
    ∧ (∀ (s : String) (body w t : List Char), s.data = body ++ (w ++ t) →
        w ≠ [] → (∀ c ∈ w, isPySpace c = true) →
        t ≠ [] → (∀ c ∈ t, notSpace c = true) →
        (body = [] ∨ ∃ b2 cb2, body = b2 ++ [cb2] ∧ isPySpace cb2 = false) →
        stripResult s = ⟨body⟩)
    ∧ (∀ s : String, (∀ c ∈ s.data, notSpace c = true) → stripResult s = s) := by
  have hcb : List.lookup m.command CALLBACKS = some Cb.mainline := by rw [hcmd]; rfl
  have h1 : processLine ch o st line =
      { stdout := [":san " ++ stripResult (ch.accept_clean game)], stderr := [],
        state := st, ctrl := .next } :=
    processLine_wf ch o st line m .mainline args game board lm hs hcb hopt hpt hbg
  exact ⟨by rw [h1], stripResult_strips, stripResult_bare⟩

/-- Witness for C6 at a two-move game whose export ends in a
whitespace-preceded result marker. -/
theorem c6_witness :
    (processLine chessMoves oracleMoves st0 ":pgn-to-mainline -- :pgn x\n").stdout =
      [":san " ++ stripResult (chessMoves.accept_clean ())] :=
  (c6_mainline_strip chessMoves oracleMoves st0 _ ⟨":pgn-to-mainline", "", ":pgn", "x"⟩ {}
    () [5, 7] (some 7) (by decide) rfl (by decide) rfl (by decide)).1

/-- C6 counterexample: the zero-move game exports the bare marker; the
code's reply keeps it, while the stripping the claim describes (modelled by
`claimStripC6`, which drops the trailing token even when no whitespace
precedes it) would remove it. -/
theorem c6_counterexample :
    (processLine chessUnit oracleUp st0 ":pgn-to-mainline -- :pgn x\n").stdout =
      [":san *"]
    ∧ claimStripC6 "*" = ""
    ∧ ":san *" ≠ ":san " ++ claimStripC6 "*" := by
  decide

/-- C1 (amended): a request line that matches the grammar, names a known
command, has parseable options and payload-type `:pgn`, a recognized board
format where applicable, and whose payload parses to a game (with, for the
score command, a succeeding engine analysis) produces exactly one reply on
standard output, starting with the reply marker of its command; the reply
is one line whenever the collaborator renderings are newline-free. -/
theorem c1_one_reply {G B M} (ch : Chess G B M) (o : Oracle B) (st : ServerState)
    (line : String) (m : Req) (cb : Cb) (args : Args) (game : G) (board : B)
    (lm : Option M)
    (hs : searchRequest line = some m)
    (hcb : List.lookup m.command CALLBACKS = some cb)
    (hopt : parseOptions m.opts = some args)
    (hpt : m.ptype = ":pgn")
    (hbg : buildGame ch m.payload = some (game, board, lm))
    (hbf : cb = .board →
      args.board_format.headD "" = "svg" ∨ args.board_format.headD "" = "text")
    (hsc : cb = .score →
      (o.analyse (instantiate_engine o st (args.engine.headD "")).1 board
        (args.depth.headD 0)).isSome)
    (hnlfen : '\n' ∉ (ch.fen board).data)
    (hnlsvg : '\n' ∉ (ch.svg board lm (args.pixels.headD 0)).data)
    (hnlsc : ∀ sc, o.analyse (instantiate_engine o st (args.engine.headD "")).1 board
      (args.depth.headD 0) = some sc → '\n' ∉ sc.data)
    (hnlsan : '\n' ∉ (ch.accept_clean game).data) :
    ∃ r rest2, (processLine ch o st line).stdout = [r]
      ∧ r = replyTag cb (args.board_format.headD "") ++ rest2
      ∧ '\n' ∉ r.data := by
  have h1 := processLine_wf ch o st line m cb args game board lm hs hcb hopt hpt hbg
  cases cb with
  | fen =>
    have h2 : processLine ch o st line =
        { stdout := [":fen " ++ ch.fen board], stderr := [], state := st,
          ctrl := .next } := h1
    refine ⟨":fen " ++ ch.fen board, ch.fen board, ?_, rfl, ?_⟩
    · rw [h2]
    · exact no_newline_append _ _ (by decide) hnlfen
  | board =>
    have h2 : processLine ch o st line =
        { stdout := [pyStr (pgn_to_board_callback ch game board lm args).1],
          stderr := (pgn_to_board_callback ch game board lm args).2,
          state := st, ctrl := .next } := h1
    rcases hbf rfl with hsvg | htext
    · have hcall : pgn_to_board_callback ch game board lm args =
          (some (":board-svg " ++ ch.svg board lm (args.pixels.headD 0)), []) := by
        unfold pgn_to_board_callback
        rw [if_pos hsvg]
      rw [hcall] at h2
      refine ⟨":board-svg " ++ ch.svg board lm (args.pixels.headD 0),
        ch.svg board lm (args.pixels.headD 0), ?_, ?_, ?_⟩
      · rw [h2]
        rfl
      · unfold replyTag
        rw [if_pos hsvg]
      · exact no_newline_append _ _ (by decide) hnlsvg
    · have hcall : pgn_to_board_callback ch game board lm args =
          (some (":board-text " ++ boardTextTransform (ch.unicode_b board)), []) := by
        unfold pgn_to_board_callback
        rw [if_neg (by rw [htext]; decide), if_pos htext]
      rw [hcall] at h2
      refine ⟨":board-text " ++ boardTextTransform (ch.unicode_b board),
        boardTextTransform (ch.unicode_b board), ?_, ?_, ?_⟩
      · rw [h2]
        rfl
      · unfold replyTag
        rw [if_neg (by rw [htext]; decide)]
      · exact no_newline_append _ _ (by decide) (boardTextTransform_no_newline _)
  | score =>
    obtain ⟨sc, hsceq⟩ := Option.isSome_iff_exists.mp (hsc rfl)
    have hcall : pgn_to_score_callback ch o st game board lm args =
        (some (":score " ++ sc), (instantiate_engine o st (args.engine.headD "")).2) := by
      unfold pgn_to_score_callback
      simp only [hsceq]
    have h2 : processLine ch o st line =
        { stdout := [":score " ++ sc], stderr := [],
          state := (instantiate_engine o st (args.engine.headD "")).2,
          ctrl := .next } := by
      rw [h1, hcall]
    refine ⟨":score " ++ sc, sc, ?_, rfl, ?_⟩
    · rw [h2]
    · exact no_newline_append _ _ (by decide) (hnlsc sc hsceq)
  | mainline =>
    have h2 : processLine ch o st line =
        { stdout := [":san " ++ stripResult (ch.accept_clean game)], stderr := [],
          state := st, ctrl := .next } := h1
    refine ⟨":san " ++ stripResult (ch.accept_clean game),
      stripResult (ch.accept_clean game), ?_, rfl, ?_⟩
    · rw [h2]
    · refine no_newline_append _ _ (by decide) ?_
      intro hmem
      exact hnlsan (mem_of_mem_stripResult _ _ hmem)

/-- Witness for C1 at a concrete fen request. -/
theorem c1_witness :
    ∃ r rest2,
      (processLine chessUnit oracleUp st0 ":pgn-to-fen -- :pgn 1. e4\n").stdout = [r]
      ∧ r = replyTag .fen (({} : Args).board_format.headD "") ++ rest2
      ∧ '\n' ∉ r.data :=
  c1_one_reply chessUnit oracleUp st0 _ ⟨":pgn-to-fen", "", ":pgn", "1. e4"⟩ .fen {}
    () () none (by decide) (by decide) (by decide) rfl (by decide)
    (fun h => Cb.noConfusion h) (fun h => Cb.noConfusion h)
    (by decide) (by decide)
    (fun sc h => by
      have h2 : some "Cp(+20)" = some sc := h
      injection h2 with h3
      rw [← h3]
      decide)
    (by decide)

/-- C1 counterexample: this line satisfies every well-formedness condition
enumerated by the claim, yet when the chess library finds no game in the
blank unescaped payload — as python-chess does — the server prints no reply
line at all and dies. -/
theorem c1_counterexample :
    searchRequest ":pgn-to-fen -- :pgn \\n\n" =
      some { command := ":pgn-to-fen", opts := "", ptype := ":pgn", payload := "\\n" }
    ∧ List.lookup ":pgn-to-fen" CALLBACKS = some Cb.fen
    ∧ parseOptions "" = some {}
    ∧ (processLine chessNone oracleUp st0 ":pgn-to-fen -- :pgn \\n\n").stdout = []
    ∧ (processLine chessNone oracleUp st0 ":pgn-to-fen -- :pgn \\n\n").ctrl =
        Control.crash := by
  decide

/-- C9 (amended): an accepted request line separates the options from the
payload-type token by one-or-more whitespace characters, the double dash,
and one-or-more whitespace characters — the regex `\s+--\s+` — not
necessarily the exact four-character sequence space, dash, dash, space. -/
theorem c9_separator (line : String) (m : Req) (h : searchRequest line = some m) :
    ∃ pre w1 w2 w3 tail,
      line.data = pre ++ (m.command.data ++ (m.opts.data ++ (w1 ++ '-' :: '-' ::
        (w2 ++ (m.ptype.data ++ (w3 ++ (m.payload.data ++ '\n' :: tail)))))))
      ∧ w1 ≠ [] ∧ (∀ c ∈ w1, isPySpace c = true)
      ∧ w2 ≠ [] ∧ (∀ c ∈ w2, isPySpace c = true)
      ∧ w3 ≠ [] ∧ (∀ c ∈ w3, isPySpace c = true) := by
  obtain ⟨pre, suf, hsplit, hm⟩ := pySearch_sound h
  obtain ⟨w1c, g2, sp1, sp2, w3c, sp3, c4, g4r, tail, hsuf, hw1ne, hw1, hg2,
    hsp1ne, hsp1, hsp2ne, hsp2, hw3ne, hw3, hsp3ne, hsp3, hc4, hg4r, hm2⟩ :=
    matchRequestAt_sound hm
  subst hm2
  refine ⟨pre, sp1, sp2, sp3, tail, ?_, hsp1ne, hsp1, hsp2ne, hsp2, hsp3ne, hsp3⟩
  rw [hsplit, hsuf]
  rfl

/-- Witness for C9 at a concrete accepted line. -/
theorem c9_witness :
    ∃ pre w1 w2 w3 tail,
      (":a -- :b c\n").data = pre ++ ((":a" : String).data ++ (("" : String).data ++
        (w1 ++ '-' :: '-' :: (w2 ++ ((":b" : String).data ++ (w3 ++
          (("c" : String).data ++ '\n' :: tail)))))))
      ∧ w1 ≠ [] ∧ (∀ c ∈ w1, isPySpace c = true)
      ∧ w2 ≠ [] ∧ (∀ c ∈ w2, isPySpace c = true)
      ∧ w3 ≠ [] ∧ (∀ c ∈ w3, isPySpace c = true) :=
  c9_separator ":a -- :b c\n" ⟨":a", "", ":b", "c"⟩ (by decide)

/-- C9 counterexample: a line with two spaces on each side of the double
dash is accepted and answered, though the claim says only the exact
sequence space, dash, dash, space is accepted. -/
theorem c9_counterexample :
    searchRequest ":pgn-to-fen  --  :pgn x\n" =
      some { command := ":pgn-to-fen", opts := "", ptype := ":pgn", payload := "x" }
    ∧ (processLine chessUnit oracleUp st0 ":pgn-to-fen  --  :pgn x\n").stdout =
        [":fen F"] := by
  decide

/-- C10: a line matching the request grammar whose payload consists of one
escaped-newline sequence: the unescaped PGN text is blank, the library
yields no game, and the step raises instead of replying or diagnosing — the
loop dies, processing no further input. -/
theorem c10_blank_payload_crash {G B M} (ch : Chess G B M) (o : Oracle B)
    (st : ServerState) (hng : ch.read_game "\n\n\n" = none) :
    processLine ch o st ":pgn-to-fen -- :pgn \\n\n" =
      { stdout := [], stderr := [], state := st, ctrl := .crash }
    ∧ ∀ rest : List String,
        runServer ch o st (":pgn-to-fen -- :pgn \\n\n" :: rest) = ([], [], st) := by
  have hbg : buildGame ch "\\n" = none := by
    unfold buildGame
    have h2 : ch.read_game ((⟨unescNL "\\n".data⟩ : String) ++ "\n\n") = none := hng
    simp only [h2]
  have hstep : processLine ch o st ":pgn-to-fen -- :pgn \\n\n" =
      { stdout := [], stderr := [], state := st, ctrl := .crash } :=
    processLine_parse_crash ch o st _ ⟨":pgn-to-fen", "", ":pgn", "\\n"⟩ .fen {}
      (by decide) (by decide) (by decide) rfl hbg
  refine ⟨hstep, fun rest => ?_⟩
  rw [runServer]
  simp only [hstep]

/-- Witness for C10 with a parser that finds no game in blank text. -/
theorem c10_witness :
    processLine chessNone oracleUp st0 ":pgn-to-fen -- :pgn \\n\n" =
      { stdout := [], stderr := [], state := st0, ctrl := .crash } :=
  (c10_blank_payload_crash chessNone oracleUp st0 (by decide)).1

end PygnServer
